import Mathlib

/-!
Shallow embedding of the embedding inference gateway of `pr_embedding`
(`src/app/llm.py`, `src/app/main.py`, `src/app/config.py`), together with
theorems settling the frozen claims about it.

The numeric compute capability (`Llama.create_embedding`), the artifact
download (`hf_hub_download`) and the engine constructor (`Llama(...)`) are
external collaborators; they are modelled as parameters (an environment
record of fallible functions).  Fallible Python code (raising exceptions)
is rendered with `Except`.
-/

namespace EmbedGw

/-- The configured pooling strategy (`config.py` line 24: a `Literal["mean",
"cls", "none"]` field, so no other value can inhabit it). -/
inductive PoolingStrategy : Type
  | mean
  | cls
  | none
  deriving DecidableEq, Repr

/-- The engine-level pooling type (`llama_cpp.LlamaEmbeddingPoolingType`
members used in `llm.py` lines 17-21). -/
inductive PoolingType : Type
  | MEAN
  | CLS
  | NONE
  deriving DecidableEq, Repr

/-- `llm.py` lines 17-21: the dict `POOLING_OPTIONS` mapping the configured
strategy name to the engine pooling type.  The dict has exactly the three
keys that `Settings.embedding_pooling` can take, so `.get(key, default)`
always finds `key`; the lookup is therefore total. -/
def POOLING_OPTIONS : PoolingStrategy → PoolingType
  | .mean => .MEAN
  | .cls => .CLS
  | .none => .NONE

/-- The relevant fields of `Settings` (`config.py`).  `batchSize` is the
engine micro-batch (`n_batch`, alias LLM_BATCH_SIZE); `maxBatchSize` is the
dispatcher ceiling (alias MAX_BATCH_SIZE).  Machine ints are modelled as
`Nat` (the claims only involve non-negative values). -/
structure Settings : Type where
  modelRepoId : String
  modelFile : String
  threads : Nat
  batchSize : Nat
  maxBatchSize : Nat
  contextWindow : Nat
  embeddingPooling : PoolingStrategy
  deriving DecidableEq, Repr

/-- The field defaults of `config.py` lines 12-26. -/
def defaultSettings : Settings :=
  { modelRepoId := "nomic-ai/nomic-embed-text-v1.5-GGUF"
    modelFile := "nomic-embed-text-v1.5.Q4_K_M.gguf"
    threads := 4
    batchSize := 64
    maxBatchSize := 32
    contextWindow := 8192
    embeddingPooling := .mean }

/-- The argument type `Iterable[str] | str` of `embed` / the request
`input` field: either a bare string or a sequence of strings. -/
inductive RawInput : Type
  | str (s : String)
  | list (xs : List String)
  deriving DecidableEq, Repr

/-- `llm.py` lines 73-77, `EmbeddingModel._ensure_iterable`: a bare `str`
becomes a one-element list (the `isinstance(texts, str)` branch); any other
iterable is materialised with `list(texts)`. -/
def ensureIterable : RawInput → List String
  | .str s => [s]
  | .list xs => xs

/-- `main.py` lines 20-23, `_normalize_inputs`: textually the same function
as `_ensure_iterable`, applied at the HTTP layer. -/
def normalizeInputs : RawInput → List String
  | .str s => [s]
  | .list xs => xs

/-- An opaque identity for the one in-process `Llama` engine instance. -/
abbrev LlamaHandle : Type := Nat

/-- The response of `llama.create_embedding`: `response["data"]` is a list
of items, each of which may or may not carry an `"embedding"` field
(`llm.py` line 103 filters on `"embedding" in item`).  An item is modelled
as `Option V`: `some v` iff the field is present with vector `v`. -/
structure EmbeddingResponse (V : Type) : Type where
  data : List (Option V)
  deriving DecidableEq, Repr

/-- The external collaborators `embed` interacts with, as one environment:
`loadLlama` is the outcome of the one-time download + `Llama(...)`
construction, `acceptsPooling` is the module-level capability flag
`_CREATE_EMBEDDING_ACCEPTS_POOLING` (`llm.py` lines 25-30), and
`createEmbedding` is the engine call on the handle.  Its `Option
PoolingType` argument is `none` when no `pooling_type` kwarg is passed. -/
structure ComputeEnv (V E : Type) : Type where
  loadLlama : Except E LlamaHandle
  acceptsPooling : Bool
  createEmbedding : LlamaHandle → List String → Bool → Option PoolingType →
    Except E (EmbeddingResponse V)

/-- One invocation of `llama.create_embedding` as observed by the engine:
the chunk, the `normalize` kwarg, and the `pooling_type` kwarg (absent when
the capability flag is off). -/
structure CallRecord : Type where
  chunk : List String
  normalize : Bool
  pooling : Option PoolingType
  deriving DecidableEq, Repr

/-- `llm.py` line 92: `resolved_batch = min(batch_size or
settings.max_batch_size, settings.max_batch_size)`.  Python `or` takes the
right operand when `batch_size` is `None` or `0` (falsy). -/
def resolvedBatch (batchSize : Option Nat) (cfg : Settings) : Nat :=
  min
    (match batchSize with
      | some k => if k = 0 then cfg.maxBatchSize else k
      | Option.none => cfg.maxBatchSize)
    cfg.maxBatchSize

/-- Fuel-indexed slicing loop.  `chunksAux bs fuel xs` mirrors
`for index in range(0, len(payload), resolved_batch): chunk =
payload[index : index + resolved_batch]` for `bs ≥ 1`, with `fuel`
initially `xs.length` (each iteration drops `bs ≥ 1` elements, so the
fuel never runs out before the list does).  Python raises `ValueError`
on a zero step; theorems about chunking therefore assume
`0 < maxBatchSize`. -/
def chunksAux (bs : Nat) : Nat → List String → List (List String)
  | 0, _ => []
  | _, [] => []
  | fuel + 1, x :: xs => (x :: xs).take bs :: chunksAux bs fuel ((x :: xs).drop bs)

/-- The list of chunks `embed` slices `payload` into (`llm.py` lines
96-97). -/
def chunkList (bs : Nat) (xs : List String) : List (List String) :=
  chunksAux bs xs.length xs

/-- The per-chunk loop of `embed` (`llm.py` lines 96-105): for each chunk
call `create_embedding`, keep the items carrying an `"embedding"` field
(`filterMap id`), and extend the accumulator.  A raised exception aborts
the loop and propagates (`Except` short-circuit).  Alongside the result we
return the trace of engine invocations actually performed. -/
def runChunks {V E : Type} (env : ComputeEnv V E) (llama : LlamaHandle)
    (normalize : Bool) (pooling : Option PoolingType) :
    List (List String) → List V → Except E (List V) × List CallRecord
  | [], acc => (.ok acc, [])
  | c :: cs, acc =>
    match env.createEmbedding llama c normalize pooling with
    | .error e => (.error e, [⟨c, normalize, pooling⟩])
    | .ok resp =>
      let rest := runChunks env llama normalize pooling cs
        (acc ++ resp.data.filterMap id)
      (rest.1, ⟨c, normalize, pooling⟩ :: rest.2)

/-- `llm.py` lines 79-107, `EmbeddingModel.embed`, instrumented with the
trace of `create_embedding` invocations.  Source order is kept: the model
is loaded first (line 86), the payload is materialised (line 87), the
empty payload returns `[]` (lines 89-90), then the batch is resolved and
the chunk loop runs. -/
def embedRun {V E : Type} (env : ComputeEnv V E) (cfg : Settings)
    (inputs : RawInput) (normalize : Bool) (batchSize : Option Nat) :
    Except E (List V) × List CallRecord :=
  match env.loadLlama with
  | .error e => (.error e, [])
  | .ok llama =>
    let payload := ensureIterable inputs
    if payload.isEmpty then (.ok [], [])
    else
      let rb := resolvedBatch batchSize cfg
      let pooling := POOLING_OPTIONS cfg.embeddingPooling
      runChunks env llama normalize
        (if env.acceptsPooling then some pooling else Option.none)
        (chunkList rb payload) []

/-- `EmbeddingModel.embed` proper: the value returned (or exception
raised), forgetting the instrumentation trace. -/
def embed {V E : Type} (env : ComputeEnv V E) (cfg : Settings)
    (inputs : RawInput) (normalize : Bool) (batchSize : Option Nat) :
    Except E (List V) :=
  (embedRun env cfg inputs normalize batchSize).1

/-- The body of `schemas.EmbeddingRequest` as the endpoint consumes it:
`input`, `normalize` (default true), `batch_size` (optional). -/
structure EmbeddingRequest : Type where
  input : RawInput
  normalize : Bool
  batchSize : Option Nat
  deriving DecidableEq, Repr

/-- Outcome of the `/v1/embeddings` endpoint: either the enumerated
embedding data plus the model string, or an HTTP error raised as
`HTTPException(status_code=500, ...)`. -/
inductive ApiResult (V E : Type) : Type
  | ok (data : List (Nat × V)) (model : String)
  | httpError (status : Nat) (detail : E)
  deriving DecidableEq, Repr

/-- `main.py` lines 63-85, `create_embeddings`: normalise the raw input,
call `embed`, convert any exception into a single HTTP 500, otherwise
enumerate the vectors into response data items. -/
def create_embeddings {V E : Type} (env : ComputeEnv V E) (cfg : Settings)
    (req : EmbeddingRequest) : ApiResult V E :=
  match embed env cfg (.list (normalizeInputs req.input)) req.normalize req.batchSize with
  | .error e => .httpError 500 e
  | .ok vs => .ok vs.enum (cfg.modelRepoId ++ ":" ++ cfg.modelFile)

/-- `main.py` lines 26-28, `_warm_model`: one synthetic request
`model.embed(["warmup"])` with the `embed` defaults `normalize=True`,
`batch_size=None`. -/
def warmModel {V E : Type} (env : ComputeEnv V E) (cfg : Settings) :
    Except E (List V) :=
  embed env cfg (.list ["warmup"]) true Option.none

/-- What the `lifespan` startup hook records about the warm-up. -/
inductive WarmupOutcome (E : Type) : Type
  | loaded
  | warmupFailed (e : E)
  deriving DecidableEq, Repr

/-- Result of running the `lifespan` startup hook: the logged warm-up
outcome and whether control reached `yield` (the service starts serving). -/
structure LifespanResult (E : Type) : Type where
  outcome : WarmupOutcome E
  serving : Bool
  deriving DecidableEq, Repr

/-- `main.py` lines 31-41, `lifespan`: attempt the warm-up once inside
`try`; on success log "loaded", on any exception log a warning — and reach
`yield` (serve) in either branch. -/
def lifespan {V : Type} {E : Type} (env : ComputeEnv V E) (cfg : Settings) :
    LifespanResult E :=
  match warmModel (V := V) env cfg with
  | .ok _ => { outcome := .loaded, serving := true }
  | .error e => { outcome := .warmupFailed e, serving := true }

/-- `llm.py` lines 42-71 viewed sequentially (one caller at a time):
`_load_llama` with the class attribute `_instance` passed as explicit
state.  `hfHubDownload` is the external `hf_hub_download` collaborator
(`_download_model`, lines 42-52) and `llamaNew` the `Llama(...)`
constructor (lines 63-70).  If the instance already exists the fast path
returns it; otherwise download then construct; an exception in either step
propagates and leaves `_instance` unset (`None`), since the assignment on
line 63 is only reached after both succeed. -/
def loadLlamaOnce {E : Type} (inst : Option LlamaHandle)
    (hfHubDownload : Except E String)
    (llamaNew : String → Except E LlamaHandle) :
    Except E LlamaHandle × Option LlamaHandle :=
  match inst with
  | some h => (.ok h, some h)
  | Option.none =>
    match hfHubDownload with
    | .error e => (.error e, Option.none)
    | .ok path =>
      match llamaNew path with
      | .error e => (.error e, Option.none)
      | .ok h => (.ok h, some h)

/-! ### Concurrent model of `EmbeddingModel._load_llama`

`llm.py` lines 54-71 under concurrent callers.  Each thread executes:
fast unlocked read of `_instance` (line 55); if unset, wait for the class
lock (line 58); inside the critical section re-check `_instance` (line
59); if still unset, download and construct (one atomic step — it happens
entirely under the lock, and `_instance` is written by a single
assignment, so no other thread can observe a partial construction), store
the new handle and release the lock.  A handle's identity is the value of
the construction counter when it was built, so two constructions would
yield two distinct handles. -/

/-- Program counter of one thread running `_load_llama`. -/
inductive PC : Type
  | start
  | waiting
  | critical
  | done (h : LlamaHandle)
  deriving DecidableEq, Repr

/-- Shared + per-thread state for `n` concurrent callers: the class
attribute `_instance`, the class lock, how many `Llama(...)` constructions
have run, and each thread's program counter. -/
structure LoaderState (n : Nat) : Type where
  inst : Option LlamaHandle
  lockHeld : Bool
  constructions : Nat
  pcs : Fin n → PC

/-- All `n` callers about to enter `_load_llama`, no model yet. -/
def loaderInit (n : Nat) : LoaderState n :=
  { inst := Option.none, lockHeld := false, constructions := 0
    pcs := fun _ => PC.start }

/-- One step of thread `i` in `_load_llama`. -/
inductive ThreadStep {n : Nat} (i : Fin n) :
    LoaderState n → LoaderState n → Prop
  | fastHit (s : LoaderState n) (h : LlamaHandle)
      (hpc : s.pcs i = PC.start) (hin : s.inst = some h) :
      ThreadStep i s { s with pcs := Function.update s.pcs i (PC.done h) }
  | fastMiss (s : LoaderState n)
      (hpc : s.pcs i = PC.start) (hin : s.inst = Option.none) :
      ThreadStep i s { s with pcs := Function.update s.pcs i PC.waiting }
  | acquireLock (s : LoaderState n)
      (hpc : s.pcs i = PC.waiting) (hl : s.lockHeld = false) :
      ThreadStep i s
        { s with lockHeld := true, pcs := Function.update s.pcs i PC.critical }
  | secondHit (s : LoaderState n) (h : LlamaHandle)
      (hpc : s.pcs i = PC.critical) (hin : s.inst = some h) :
      ThreadStep i s
        { s with lockHeld := false, pcs := Function.update s.pcs i (PC.done h) }
  | construct (s : LoaderState n)
      (hpc : s.pcs i = PC.critical) (hin : s.inst = Option.none) :
      ThreadStep i s
        { inst := some s.constructions, lockHeld := false
          constructions := s.constructions + 1
          pcs := Function.update s.pcs i (PC.done s.constructions) }

/-- Interleaving: some thread takes a step. -/
def LoaderStep {n : Nat} (s s' : LoaderState n) : Prop :=
  ∃ i : Fin n, ThreadStep i s s'

/-- States reachable from the all-start configuration. -/
def LoaderReachable {n : Nat} (s : LoaderState n) : Prop :=
  Relation.ReflTransGen LoaderStep (loaderInit n) s

/-! ### Helper lemmas: chunking -/

/-- With a positive step, slicing with fuel at least the length recovers
the whole list on concatenation. -/
lemma chunksAux_flatten (bs : Nat) (hbs : 0 < bs) :
    ∀ (fuel : Nat) (xs : List String), xs.length ≤ fuel →
      (chunksAux bs fuel xs).flatten = xs := by
  intro fuel
  induction fuel with
  | zero =>
    intro xs hxs
    have : xs = [] := List.eq_nil_of_length_eq_zero (Nat.le_zero.mp hxs)
    subst this
    rfl
  | succ fuel ih =>
    intro xs hxs
    cases xs with
    | nil => rfl
    | cons x t =>
      have hdrop : ((x :: t).drop bs).length ≤ fuel := by
        rw [List.length_drop]
        simp only [List.length_cons] at hxs ⊢
        omega
      simp only [chunksAux, List.flatten_cons, ih _ hdrop, List.take_append_drop]

/-- Every chunk produced by the slicing loop has at most `bs` elements. -/
lemma chunksAux_mem_length_le (bs : Nat) :
    ∀ (fuel : Nat) (xs c : List String), c ∈ chunksAux bs fuel xs →
      c.length ≤ bs := by
  intro fuel
  induction fuel with
  | zero => intro xs c hc; simp [chunksAux] at hc
  | succ fuel ih =>
    intro xs c hc
    cases xs with
    | nil => simp [chunksAux] at hc
    | cons x t =>
      rcases List.mem_cons.mp hc with h | h
      · subst h
        rw [List.length_take]
        exact Nat.min_le_left _ _
      · exact ih _ _ h

/-- The chunk list concatenates back to the payload (positive batch). -/
lemma chunkList_flatten (bs : Nat) (hbs : 0 < bs) (xs : List String) :
    (chunkList bs xs).flatten = xs :=
  chunksAux_flatten bs hbs xs.length xs (Nat.le_refl _)

/-- Chunks in the chunk list respect the batch bound. -/
lemma chunkList_mem_length_le (bs : Nat) (xs c : List String)
    (hc : c ∈ chunkList bs xs) : c.length ≤ bs :=
  chunksAux_mem_length_le bs xs.length xs c hc

/-- The resolved sub-batch size is positive whenever the configured
ceiling is. -/
lemma resolvedBatch_pos (b : Option Nat) (cfg : Settings)
    (h : 0 < cfg.maxBatchSize) : 0 < resolvedBatch b cfg := by
  cases b with
  | none => simp only [resolvedBatch]; omega
  | some k =>
    by_cases hk : k = 0 <;> simp only [resolvedBatch, hk, if_true, if_false] <;> omega

/-- For an absent or positive request, the Python `or`-based resolution
agrees with the plain `min(requested or default, ceiling)` formula. -/
lemma resolvedBatch_eq_min (b : Option Nat) (cfg : Settings)
    (hb : b = Option.none ∨ ∃ k, b = some k ∧ 0 < k) :
    resolvedBatch b cfg = min (b.getD cfg.maxBatchSize) cfg.maxBatchSize := by
  rcases hb with rfl | ⟨k, rfl, hk⟩
  · rfl
  · unfold resolvedBatch
    have : k ≠ 0 := Nat.pos_iff_ne_zero.mp hk
    simp [this]

/-! ### Helper lemmas: the per-chunk loop -/

/-- Every engine invocation recorded by `runChunks` is on one of the given
chunks, with the given `normalize` and `pooling` arguments. -/
lemma runChunks_trace {V E : Type} (env : ComputeEnv V E) (llama : LlamaHandle)
    (n : Bool) (p : Option PoolingType) :
    ∀ (cs : List (List String)) (acc : List V) (r : CallRecord),
      r ∈ (runChunks env llama n p cs acc).2 →
      r.chunk ∈ cs ∧ r.normalize = n ∧ r.pooling = p := by
  intro cs
  induction cs with
  | nil => intro acc r hr; cases hr
  | cons c cs ih =>
    intro acc r hr
    unfold runChunks at hr
    cases hcall : env.createEmbedding llama c n p with
    | error e =>
      rw [hcall] at hr
      rcases List.mem_singleton.mp hr with rfl
      exact ⟨List.mem_cons_self _ _, rfl, rfl⟩
    | ok resp =>
      rw [hcall] at hr
      rcases List.mem_cons.mp hr with rfl | hr
      · exact ⟨List.mem_cons_self _ _, rfl, rfl⟩
      · rcases ih _ r hr with ⟨h1, h2, h3⟩
        exact ⟨List.mem_cons_of_mem _ h1, h2, h3⟩

/-- When the engine answers every chunk, the loop returns the concatenated
filtered vectors and records one call per chunk, in order. -/
lemma runChunks_ok {V E : Type} (env : ComputeEnv V E) (llama : LlamaHandle)
    (n : Bool) (p : Option PoolingType) (resp : List String → EmbeddingResponse V) :
    ∀ (cs : List (List String)) (acc : List V),
      (∀ c ∈ cs, env.createEmbedding llama c n p = .ok (resp c)) →
      runChunks env llama n p cs acc =
        (.ok (acc ++ (cs.map fun c => (resp c).data.filterMap id).flatten),
         cs.map fun c => ⟨c, n, p⟩) := by
  intro cs
  induction cs with
  | nil => intro acc _; simp [runChunks]
  | cons c cs ih =>
    intro acc hok
    have hc : env.createEmbedding llama c n p = .ok (resp c) :=
      hok c (List.mem_cons_self _ _)
    have hrest : ∀ c' ∈ cs, env.createEmbedding llama c' n p = .ok (resp c') :=
      fun c' hc' => hok c' (List.mem_cons_of_mem _ hc')
    unfold runChunks
    rw [hc]
    simp only [ih _ hrest, List.map_cons, List.flatten_cons, List.append_assoc]

/-- If the engine fails on a chunk after answering all earlier ones, the
loop result is that failure. -/
lemma runChunks_error {V E : Type} (env : ComputeEnv V E) (llama : LlamaHandle)
    (n : Bool) (p : Option PoolingType) (bad : List String) (e : E)
    (hbad : env.createEmbedding llama bad n p = .error e) :
    ∀ (pre rest : List (List String)) (acc : List V),
      (∀ c ∈ pre, ∃ r, env.createEmbedding llama c n p = .ok r) →
      (runChunks env llama n p (pre ++ bad :: rest) acc).1 = .error e := by
  intro pre
  induction pre with
  | nil =>
    intro rest acc _
    unfold runChunks
    rw [List.nil_append]
    simp only [hbad]
  | cons c pre ih =>
    intro rest acc hok
    obtain ⟨r, hr⟩ := hok c (List.mem_cons_self _ _)
    have hrest : ∀ c' ∈ pre, ∃ r, env.createEmbedding llama c' n p = .ok r :=
      fun c' hc' => hok c' (List.mem_cons_of_mem _ hc')
    unfold runChunks
    rw [List.cons_append]
    simp only [hr]
    exact ih rest _ hrest

/-! ### Helper lemmas: `embedRun` -/

/-- `_normalize_inputs` (main.py) and `_ensure_iterable` (llm.py) are the
same function. -/
lemma normalizeInputs_eq_ensureIterable (t : RawInput) :
    normalizeInputs t = ensureIterable t := by
  cases t <;> rfl

/-- `embed` depends on its input only through `_ensure_iterable`, so
re-wrapping the materialised payload as a list changes nothing. -/
lemma embedRun_list_ensure {V E : Type} (env : ComputeEnv V E) (cfg : Settings)
    (inputs : RawInput) (n : Bool) (b : Option Nat) :
    embedRun env cfg (.list (ensureIterable inputs)) n b =
      embedRun env cfg inputs n b := by
  cases inputs <;> rfl

/-- Unfolding of `embedRun` when the model loads and the engine answers
every chunk: the concatenated filtered vectors, one recorded call per
chunk in order. -/
lemma embedRun_ok {V E : Type} (env : ComputeEnv V E) (cfg : Settings)
    (inputs : RawInput) (n : Bool) (b : Option Nat) (llama : LlamaHandle)
    (resp : List String → EmbeddingResponse V)
    (hload : env.loadLlama = .ok llama)
    (hne : ensureIterable inputs ≠ [])
    (hresp : ∀ c ∈ chunkList (resolvedBatch b cfg) (ensureIterable inputs),
      env.createEmbedding llama c n
        (if env.acceptsPooling then some (POOLING_OPTIONS cfg.embeddingPooling)
          else Option.none) = .ok (resp c)) :
    embedRun env cfg inputs n b =
      (.ok ((chunkList (resolvedBatch b cfg) (ensureIterable inputs)).map
          (fun c => (resp c).data.filterMap id)).flatten,
       (chunkList (resolvedBatch b cfg) (ensureIterable inputs)).map
         fun c => ⟨c, n,
           if env.acceptsPooling then some (POOLING_OPTIONS cfg.embeddingPooling)
            else Option.none⟩) := by
  unfold embedRun
  rw [hload]
  have hemp : (ensureIterable inputs).isEmpty = false := by
    simp [List.isEmpty_iff, hne]
  simp only [hemp, Bool.false_eq_true, if_false,
    runChunks_ok env llama n _ resp _ [] hresp, List.nil_append]

/-- Every engine invocation recorded by `embedRun` is on a chunk of the
resolved chunk list, with the call's `normalize` flag and the pooling
derived from the configuration. -/
lemma embedRun_trace_mem {V E : Type} (env : ComputeEnv V E) (cfg : Settings)
    (inputs : RawInput) (n : Bool) (b : Option Nat) (r : CallRecord)
    (hr : r ∈ (embedRun env cfg inputs n b).2) :
    r.chunk ∈ chunkList (resolvedBatch b cfg) (ensureIterable inputs)
    ∧ r.normalize = n
    ∧ r.pooling = (if env.acceptsPooling then some (POOLING_OPTIONS cfg.embeddingPooling)
        else Option.none) := by
  unfold embedRun at hr
  cases hload : env.loadLlama with
  | error e => rw [hload] at hr; cases hr
  | ok llama =>
    rw [hload] at hr
    by_cases hemp : (ensureIterable inputs).isEmpty
    · simp only [hemp, if_true] at hr
      cases hr
    · simp only [hemp, Bool.false_eq_true, if_false] at hr
      exact runChunks_trace env llama n _ _ [] r hr

/-- Dropping an entry with no vector shortens the filtered list strictly. -/
lemma filterMap_id_length_lt {α : Type} (l : List (Option α))
    (h : Option.none ∈ l) : (l.filterMap id).length < l.length := by
  induction l with
  | nil => cases h
  | cons a l ih =>
    cases a with
    | none =>
      have := List.length_filterMap_le (id : Option α → Option α) l
      simp only [List.filterMap_cons, id, List.length_cons]
      omega
    | some v =>
      rcases List.mem_cons.mp h with h' | h'
      · cases h'
      · have := ih h'
        simp only [List.filterMap_cons, id, List.length_cons]
        omega

/-- Pointwise bounded sums with one strict bound compare strictly. -/
lemma map_sum_lt_of_exists {α : Type} (L : List α) (g w : α → Nat)
    (hle : ∀ c ∈ L, g c ≤ w c) (hlt : ∃ c ∈ L, g c < w c) :
    (L.map g).sum < (L.map w).sum := by
  induction L with
  | nil => rcases hlt with ⟨c, hc, _⟩; cases hc
  | cons c L ih =>
    simp only [List.map_cons, List.sum_cons]
    rcases hlt with ⟨c', hc', hlt'⟩
    rcases List.mem_cons.mp hc' with rfl | hmem
    · have : (L.map g).sum ≤ (L.map w).sum :=
        List.sum_le_sum fun x hx => hle x (List.mem_cons_of_mem _ hx)
      omega
    · have h1 : g c ≤ w c := hle c (List.mem_cons_self _ _)
      have h2 : (L.map g).sum < (L.map w).sum :=
        ih (fun x hx => hle x (List.mem_cons_of_mem _ hx)) ⟨c', hmem, hlt'⟩
      omega

/-! ### Helper lemmas: the loader state machine -/

/-- The inductive invariant of the double-checked locking protocol: the
lock guards the critical section and is exclusive; at most one
construction ever runs; `_instance` is set exactly when a construction has
run, and then holds the handle of the first (index 0) construction; a
finished thread holds the current instance. -/
def LoaderInv {n : Nat} (s : LoaderState n) : Prop :=
  (∀ i, s.pcs i = PC.critical → s.lockHeld = true)
  ∧ (∀ i j, s.pcs i = PC.critical → s.pcs j = PC.critical → i = j)
  ∧ s.constructions ≤ 1
  ∧ (s.inst = Option.none ↔ s.constructions = 0)
  ∧ (∀ h, s.inst = some h → h = 0)
  ∧ (∀ i h, s.pcs i = PC.done h → s.inst = some h)

lemma loaderInv_init (n : Nat) : LoaderInv (loaderInit n) := by
  refine ⟨?_, ?_, ?_, ?_, ?_, ?_⟩ <;> simp [loaderInit]

lemma loaderInv_step {n : Nat} {s s' : LoaderState n}
    (hinv : LoaderInv s) (hstep : LoaderStep s s') : LoaderInv s' := by
  obtain ⟨hlock, hmutex, hcount, hiffz, hzero, hdone⟩ := hinv
  obtain ⟨i, tstep⟩ := hstep
  cases tstep with
  | fastHit h hpc hin =>
    refine ⟨?_, ?_, hcount, hiffz, hzero, ?_⟩ <;> dsimp only
    · intro j hj
      by_cases hji : j = i
      · subst hji; rw [Function.update_same] at hj; cases hj
      · rw [Function.update_noteq hji] at hj; exact hlock j hj
    · intro j k hj hk
      by_cases hji : j = i
      · subst hji; rw [Function.update_same] at hj; cases hj
      · by_cases hki : k = i
        · subst hki; rw [Function.update_same] at hk; cases hk
        · rw [Function.update_noteq hji] at hj
          rw [Function.update_noteq hki] at hk
          exact hmutex j k hj hk
    · intro j h' hj
      by_cases hji : j = i
      · subst hji; rw [Function.update_same] at hj
        cases hj; exact hin
      · rw [Function.update_noteq hji] at hj; exact hdone j h' hj
  | fastMiss hpc hin =>
    refine ⟨?_, ?_, hcount, hiffz, hzero, ?_⟩ <;> dsimp only
    · intro j hj
      by_cases hji : j = i
      · subst hji; rw [Function.update_same] at hj; cases hj
      · rw [Function.update_noteq hji] at hj; exact hlock j hj
    · intro j k hj hk
      by_cases hji : j = i
      · subst hji; rw [Function.update_same] at hj; cases hj
      · by_cases hki : k = i
        · subst hki; rw [Function.update_same] at hk; cases hk
        · rw [Function.update_noteq hji] at hj
          rw [Function.update_noteq hki] at hk
          exact hmutex j k hj hk
    · intro j h' hj
      by_cases hji : j = i
      · subst hji; rw [Function.update_same] at hj; cases hj
      · rw [Function.update_noteq hji] at hj; exact hdone j h' hj
  | acquireLock hpc hl =>
    refine ⟨fun _ _ => rfl, ?_, hcount, hiffz, hzero, ?_⟩ <;> dsimp only
    · intro j k hj hk
      by_cases hji : j = i
      · by_cases hki : k = i
        · rw [hji, hki]
        · rw [Function.update_noteq hki] at hk
          exact absurd (hlock k hk) (by rw [hl]; exact Bool.false_ne_true)
      · rw [Function.update_noteq hji] at hj
        exact absurd (hlock j hj) (by rw [hl]; exact Bool.false_ne_true)
    · intro j h' hj
      by_cases hji : j = i
      · subst hji; rw [Function.update_same] at hj; cases hj
      · rw [Function.update_noteq hji] at hj; exact hdone j h' hj
  | secondHit h hpc hin =>
    refine ⟨?_, ?_, hcount, hiffz, hzero, ?_⟩ <;> dsimp only
    · intro j hj
      by_cases hji : j = i
      · subst hji; rw [Function.update_same] at hj; cases hj
      · rw [Function.update_noteq hji] at hj
        exact absurd (hmutex j i hj hpc) hji
    · intro j k hj hk
      by_cases hji : j = i
      · subst hji; rw [Function.update_same] at hj; cases hj
      · rw [Function.update_noteq hji] at hj
        exact absurd (hmutex j i hj hpc) hji
    · intro j h' hj
      by_cases hji : j = i
      · subst hji; rw [Function.update_same] at hj
        cases hj; exact hin
      · rw [Function.update_noteq hji] at hj; exact hdone j h' hj
  | construct hpc hin =>
    have hc0 : s.constructions = 0 := hiffz.mp hin
    refine ⟨?_, ?_, ?_, ?_, ?_, ?_⟩ <;> dsimp only
    · intro j hj
      by_cases hji : j = i
      · subst hji; rw [Function.update_same] at hj; cases hj
      · rw [Function.update_noteq hji] at hj
        exact absurd (hmutex j i hj hpc) hji
    · intro j k hj hk
      by_cases hji : j = i
      · subst hji; rw [Function.update_same] at hj; cases hj
      · rw [Function.update_noteq hji] at hj
        exact absurd (hmutex j i hj hpc) hji
    · show s.constructions + 1 ≤ 1
      omega
    · constructor
      · intro h; cases h
      · intro h; exact absurd h (by omega)
    · intro h' hh'
      have hsc : s.constructions = h' := Option.some_inj.mp hh'
      exact hsc ▸ hc0
    · intro j h' hj
      by_cases hji : j = i
      · subst hji; rw [Function.update_same] at hj
        cases hj; rfl
      · rw [Function.update_noteq hji] at hj
        have := hdone j h' hj
        rw [hin] at this
        cases this

lemma loaderInv_reachable {n : Nat} {s : LoaderState n}
    (h : LoaderReachable s) : LoaderInv s := by
  induction h with
  | refl => exact loaderInv_init n
  | tail _ hstep ih => exact loaderInv_step ih hstep

/-! ### Concrete environments used by the witnesses -/

/-- A healthy environment: the model loads, the engine answers one vector
per input (its length, as a stand-in vector). -/
def envGood : ComputeEnv Nat String :=
  { loadLlama := .ok 0
    acceptsPooling := true
    createEmbedding := fun _ c _ _ => .ok ⟨c.map fun s => some s.length⟩ }

/-! ### Claims -/

/-- C1: for every non-empty input sequence, assuming the compute
capability returns exactly one vector per input string in each chunk
(entry `i` computed from the chunk's string `i` by some fixed `f`),
`embed` returns one vector per input in input order: the result is
`xs.map f`, so it has length `len(inputs)` and its `i`-th vector is the
one produced for `inputs[i]`.  (Requires the configured ceiling to be
positive, as in any real configuration — a zero ceiling makes the Python
`range` step raise.) -/
theorem embed_preserves_order_and_length {V E : Type} (env : ComputeEnv V E)
    (cfg : Settings) (xs : List String) (n : Bool) (b : Option Nat)
    (llama : LlamaHandle) (f : String → V)
    (hmax : 0 < cfg.maxBatchSize)
    (hload : env.loadLlama = .ok llama)
    (hne : xs ≠ [])
    (hcompute : ∀ (c : List String) (nn : Bool) (p : Option PoolingType),
      env.createEmbedding llama c nn p = .ok ⟨c.map fun s => some (f s)⟩) :
    embed env cfg (.list xs) n b = .ok (xs.map f)
    ∧ (xs.map f).length = xs.length := by
  refine ⟨?_, List.length_map xs f⟩
  have hrun := embedRun_ok env cfg (.list xs) n b llama
    (fun c => ⟨c.map fun s => some (f s)⟩) hload hne
    (fun c _ => hcompute c n _)
  unfold embed
  rw [hrun]
  have h1 : ∀ c : List String,
      ((c.map fun s => some (f s)).filterMap id) = c.map f := by
    intro c
    induction c with
    | nil => rfl
    | cons a c ih => simp [List.filterMap_cons, ih]
  show Except.ok _ = _
  congr 1
  calc ((chunkList (resolvedBatch b cfg) (ensureIterable (.list xs))).map
          fun c => ((⟨c.map fun s => some (f s)⟩ : EmbeddingResponse V).data.filterMap id)).flatten
      = ((chunkList (resolvedBatch b cfg) xs).map (List.map f)).flatten := by
        simp only [ensureIterable, h1]
    _ = ((chunkList (resolvedBatch b cfg) xs).flatten).map f :=
        (List.map_flatten f _).symm
    _ = xs.map f := by
        rw [chunkList_flatten _ (resolvedBatch_pos b cfg hmax)]

/-- Witness for C1 at a concrete healthy environment and a three-string
batch. -/
theorem embed_preserves_order_and_length_witness :
    embed envGood defaultSettings (.list ["a", "bb", "ccc"]) true Option.none
        = .ok (["a", "bb", "ccc"].map String.length)
    ∧ ((["a", "bb", "ccc"] : List String).map String.length).length
        = (["a", "bb", "ccc"] : List String).length :=
  embed_preserves_order_and_length envGood defaultSettings ["a", "bb", "ccc"]
    true Option.none 0 String.length (by decide) rfl (by decide)
    (fun _ _ _ => rfl)

/-- C3: the effective sub-batch size is
`min(requested if provided else configured max, configured max)` (for an
absent or positive request, matching the schema's `ge=1` validation);
every chunk actually passed to `create_embedding` has at most that many
elements; and the chunk list is a contiguous, order-preserving partition
of the payload (its concatenation is the payload). -/
theorem embed_batch_ceiling {V E : Type} (env : ComputeEnv V E)
    (cfg : Settings) (inputs : RawInput) (n : Bool) (b : Option Nat)
    (hb : b = Option.none ∨ ∃ k, b = some k ∧ 0 < k)
    (hmax : 0 < cfg.maxBatchSize) :
    resolvedBatch b cfg = min (b.getD cfg.maxBatchSize) cfg.maxBatchSize
    ∧ (∀ r ∈ (embedRun env cfg inputs n b).2,
        r.chunk.length ≤ resolvedBatch b cfg)
    ∧ (chunkList (resolvedBatch b cfg) (ensureIterable inputs)).flatten
        = ensureIterable inputs :=
  ⟨resolvedBatch_eq_min b cfg hb,
   fun r hr => chunkList_mem_length_le _ _ _
     (embedRun_trace_mem env cfg inputs n b r hr).1,
   chunkList_flatten _ (resolvedBatch_pos b cfg hmax) _⟩

/-- Witness for C3: requesting a batch of 1000 under the default ceiling
of 32. -/
theorem embed_batch_ceiling_witness :
    resolvedBatch (some 1000) defaultSettings
        = min ((some 1000).getD defaultSettings.maxBatchSize) defaultSettings.maxBatchSize
    ∧ (∀ r ∈ (embedRun envGood defaultSettings (.list ["a", "b", "c"]) true (some 1000)).2,
        r.chunk.length ≤ resolvedBatch (some 1000) defaultSettings)
    ∧ (chunkList (resolvedBatch (some 1000) defaultSettings)
        (ensureIterable (.list ["a", "b", "c"]))).flatten
        = ensureIterable (.list ["a", "b", "c"]) :=
  embed_batch_ceiling envGood defaultSettings (.list ["a", "b", "c"]) true
    (some 1000) (Or.inr ⟨1000, rfl, by decide⟩) (by decide)

/-- C9: the pooling value passed to the compute capability on every
recorded call is derived from the configured strategy alone (the
configured `POOLING_OPTIONS` image when the capability flag is on, no
kwarg at all otherwise): it does not depend on the inputs, the normalize
flag or the batch size, and `embed` exposes no per-call pooling
parameter.  The strategy space is exactly {mean, cls, none}. -/
theorem embed_pooling_from_config {V E : Type} (env : ComputeEnv V E)
    (cfg : Settings) (inputs : RawInput) (n : Bool) (b : Option Nat)
    (r : CallRecord) (hr : r ∈ (embedRun env cfg inputs n b).2) :
    r.pooling = (if env.acceptsPooling
        then some (POOLING_OPTIONS cfg.embeddingPooling) else Option.none)
    ∧ POOLING_OPTIONS PoolingStrategy.mean = PoolingType.MEAN
    ∧ POOLING_OPTIONS PoolingStrategy.cls = PoolingType.CLS
    ∧ POOLING_OPTIONS PoolingStrategy.none = PoolingType.NONE :=
  ⟨(embedRun_trace_mem env cfg inputs n b r hr).2.2, rfl, rfl, rfl⟩

/-- Witness for C9: the single call recorded for a one-string batch under
the default (mean) configuration carries pooling MEAN. -/
theorem embed_pooling_from_config_witness :
    (⟨["a"], true, some PoolingType.MEAN⟩ : CallRecord).pooling
        = (if envGood.acceptsPooling
            then some (POOLING_OPTIONS defaultSettings.embeddingPooling) else Option.none)
    ∧ POOLING_OPTIONS PoolingStrategy.mean = PoolingType.MEAN
    ∧ POOLING_OPTIONS PoolingStrategy.cls = PoolingType.CLS
    ∧ POOLING_OPTIONS PoolingStrategy.none = PoolingType.NONE :=
  embed_pooling_from_config envGood defaultSettings (.list ["a"]) true
    Option.none ⟨["a"], true, some PoolingType.MEAN⟩ (by decide)

/-- C10: a bare string at the `embed` interface is treated as a
one-element batch: `embed(s, ...)` computes exactly what
`embed([s], ...)` computes (same value and same engine invocations), not
an iteration over the string's characters. -/
theorem embed_bare_string_is_singleton {V E : Type} (env : ComputeEnv V E)
    (cfg : Settings) (s : String) (n : Bool) (b : Option Nat) :
    embed env cfg (.str s) n b = embed env cfg (.list [s]) n b
    ∧ embedRun env cfg (.str s) n b = embedRun env cfg (.list [s]) n b :=
  ⟨rfl, rfl⟩

/-- C4: if the engine fails on some chunk (after answering the chunks
before it), the whole `embed` call raises that single failure — no vector
list is returned — and the endpoint converts it into one HTTP 500. -/
theorem embed_chunk_failure_fails_whole_call {V E : Type} (env : ComputeEnv V E)
    (cfg : Settings) (inputs : RawInput) (n : Bool) (b : Option Nat)
    (llama : LlamaHandle) (e : E) (pre rest : List (List String))
    (bad : List String)
    (hload : env.loadLlama = .ok llama)
    (hchunks : chunkList (resolvedBatch b cfg) (ensureIterable inputs)
        = pre ++ bad :: rest)
    (hpre : ∀ c ∈ pre, ∃ r, env.createEmbedding llama c n
        (if env.acceptsPooling then some (POOLING_OPTIONS cfg.embeddingPooling)
          else Option.none) = .ok r)
    (hbad : env.createEmbedding llama bad n
        (if env.acceptsPooling then some (POOLING_OPTIONS cfg.embeddingPooling)
          else Option.none) = .error e) :
    embed env cfg inputs n b = .error e
    ∧ create_embeddings env cfg ⟨inputs, n, b⟩ = .httpError 500 e := by
  have hne : ensureIterable inputs ≠ [] := by
    intro h
    rw [h] at hchunks
    simp [chunkList, chunksAux] at hchunks
  have hmain : embed env cfg inputs n b = .error e := by
    unfold embed embedRun
    rw [hload]
    have hemp : (ensureIterable inputs).isEmpty = false := by
      simp [List.isEmpty_iff, hne]
    simp only [hemp, Bool.false_eq_true, if_false]
    rw [hchunks]
    exact runChunks_error env llama n _ bad e hbad pre rest [] hpre
  refine ⟨hmain, ?_⟩
  unfold create_embeddings
  have hlist : embed env cfg (.list (normalizeInputs inputs)) n b = .error e := by
    rw [normalizeInputs_eq_ensureIterable]
    unfold embed
    rw [embedRun_list_ensure]
    exact hmain
  dsimp only
  rw [hlist]

/-- The environment of the C4 witness: the engine rejects the chunk
["c", "d"] and answers every other chunk. -/
def envFailMid : ComputeEnv Nat String :=
  { loadLlama := .ok 0
    acceptsPooling := true
    createEmbedding := fun _ c _ _ =>
      if c = ["c", "d"] then .error "engine failure"
      else .ok ⟨c.map fun _ => some 7⟩ }

/-- The configuration of the C4 and C7 scenarios: ceiling 2. -/
def settingsMax2 : Settings := { defaultSettings with maxBatchSize := 2 }

/-- Witness for C4: five inputs under ceiling 2 give chunks
[a b][c d][e]; the engine fails on the second chunk, so the whole call
(and the endpoint) fails even though the first chunk succeeded. -/
theorem embed_chunk_failure_fails_whole_call_witness :
    embed envFailMid settingsMax2 (.list ["a", "b", "c", "d", "e"]) true
        Option.none = .error "engine failure"
    ∧ create_embeddings envFailMid settingsMax2
        ⟨.list ["a", "b", "c", "d", "e"], true, Option.none⟩
        = .httpError 500 "engine failure" :=
  embed_chunk_failure_fails_whole_call envFailMid settingsMax2
    (.list ["a", "b", "c", "d", "e"]) true Option.none 0 "engine failure"
    [["a", "b"]] [["e"]] ["c", "d"] rfl (by decide)
    (by
      intro c hc
      obtain rfl := List.mem_singleton.mp hc
      exact ⟨_, rfl⟩)
    rfl

/-- The environment of the C6 counterexample: model download fails. -/
def envBad : ComputeEnv Nat String :=
  { loadLlama := .error "model download failed"
    acceptsPooling := true
    createEmbedding := fun _ _ _ _ => .error "engine not loaded" }

/-- Counterexample to C6: `embed` loads the model before checking for an
empty payload (`llm.py` line 86 precedes lines 89-90), so with a failing
loader `embed([])` raises instead of returning the empty result — "returns
an empty result with no error" is false as stated. -/
theorem embed_empty_counterexample :
    embed envBad defaultSettings (.list []) true Option.none
        = .error "model download failed"
    ∧ embed envBad defaultSettings (.list []) true Option.none
        ≠ .ok [] :=
  ⟨rfl, fun h => by cases h⟩

/-- C6 as amended: when the model handle loads (or is already loaded),
`embed([])` returns `[]` with no error and performs no engine invocation
at all; the model load itself is still attempted first, and its failure
propagates even for an empty batch. -/
theorem embed_empty_noop_when_loaded {V E : Type} (env : ComputeEnv V E)
    (cfg : Settings) (n : Bool) (b : Option Nat) (llama : LlamaHandle)
    (hload : env.loadLlama = .ok llama) :
    embedRun env cfg (.list []) n b = (.ok ([] : List V), ([] : List CallRecord)) := by
  unfold embedRun
  rw [hload]
  rfl

/-- Witness for the amended C6 at the healthy environment. -/
theorem embed_empty_noop_when_loaded_witness :
    embedRun envGood defaultSettings (.list []) true Option.none
        = (.ok ([] : List Nat), ([] : List CallRecord)) :=
  embed_empty_noop_when_loaded envGood defaultSettings true Option.none 0 rfl

/-- C7: for each chunk, `embed` keeps exactly the response entries that
carry an `"embedding"` field, in response order (the result is the
concatenation of the per-chunk `filterMap`s), and drops the rest; if the
engine returns one entry per input but some entries lack the vector, the
result is strictly shorter than the inputs, so it is no longer
index-aligned. -/
theorem embed_drops_entries_without_vector {V E : Type} (env : ComputeEnv V E)
    (cfg : Settings) (xs : List String) (n : Bool) (b : Option Nat)
    (llama : LlamaHandle) (resp : List String → EmbeddingResponse V)
    (hmax : 0 < cfg.maxBatchSize)
    (hload : env.loadLlama = .ok llama)
    (hne : xs ≠ [])
    (hresp : ∀ c ∈ chunkList (resolvedBatch b cfg) xs,
      env.createEmbedding llama c n
        (if env.acceptsPooling then some (POOLING_OPTIONS cfg.embeddingPooling)
          else Option.none) = .ok (resp c)) :
    embed env cfg (.list xs) n b
        = .ok ((chunkList (resolvedBatch b cfg) xs).map
            fun c => (resp c).data.filterMap id).flatten
    ∧ ((∀ c ∈ chunkList (resolvedBatch b cfg) xs, (resp c).data.length = c.length) →
        (∃ c ∈ chunkList (resolvedBatch b cfg) xs, Option.none ∈ (resp c).data) →
        (((chunkList (resolvedBatch b cfg) xs).map
            fun c => (resp c).data.filterMap id).flatten).length < xs.length) := by
  constructor
  · have hrun := embedRun_ok env cfg (.list xs) n b llama resp hload hne hresp
    unfold embed
    rw [hrun]
    rfl
  · intro hlen hdrop
    rw [List.length_flatten, List.map_map]
    have hxs : xs.length = ((chunkList (resolvedBatch b cfg) xs).map List.length).sum := by
      conv_lhs => rw [← chunkList_flatten _ (resolvedBatch_pos b cfg hmax) xs]
      exact List.length_flatten _
    rw [hxs]
    apply map_sum_lt_of_exists
    · intro c hc
      have h1 : ((resp c).data.filterMap id).length ≤ (resp c).data.length :=
        List.length_filterMap_le id (resp c).data
      have h2 := hlen c hc
      simp only [Function.comp]
      omega
    · obtain ⟨c0, hc0, hnone⟩ := hdrop
      refine ⟨c0, hc0, ?_⟩
      have h1 := filterMap_id_length_lt (resp c0).data hnone
      have h2 := hlen c0 hc0
      simp only [Function.comp]
      omega

/-- The environment of the C7 witness: the engine returns one entry per
input but omits the vector for the string "bad". -/
def envDrop : ComputeEnv Nat String :=
  { loadLlama := .ok 0
    acceptsPooling := true
    createEmbedding := fun _ c _ _ =>
      .ok ⟨c.map fun s => if s = "bad" then Option.none else some s.length⟩ }

/-- Witness for C7: of three inputs one entry lacks a vector, so `embed`
returns two vectors — shorter than the input batch. -/
theorem embed_drops_entries_without_vector_witness :
    embed envDrop defaultSettings (.list ["a", "bad", "cc"]) true Option.none
        = .ok [1, 2]
    ∧ ([1, 2] : List Nat).length < (["a", "bad", "cc"] : List String).length := by
  have h := embed_drops_entries_without_vector envDrop defaultSettings
    ["a", "bad", "cc"] true Option.none 0
    (fun c => ⟨c.map fun s => if s = "bad" then Option.none else some s.length⟩)
    (by decide) rfl (by decide) (fun _ _ => rfl)
  exact ⟨h.1.trans (by rfl), h.2 (by decide) (by decide)⟩

/-- C8: the startup hook attempts exactly the one synthetic warm-up
request `embed(["warmup"])` (with the `embed` defaults), and whatever the
environment does — including any warm-up failure — the hook reaches
`yield`: `serving` is `true` unconditionally, and a failure is only
recorded in the logged outcome. -/
theorem lifespan_always_serves {V E : Type} (env : ComputeEnv V E)
    (cfg : Settings) :
    (lifespan (V := V) env cfg).serving = true
    ∧ (∀ e, (lifespan (V := V) env cfg).outcome = .warmupFailed e
        ↔ warmModel (V := V) env cfg = .error e)
    ∧ warmModel (V := V) env cfg
        = embed env cfg (.list ["warmup"]) true Option.none := by
  refine ⟨?_, ?_, rfl⟩
  · unfold lifespan
    cases warmModel (V := V) env cfg <;> rfl
  · intro e
    unfold lifespan
    cases h : warmModel (V := V) env cfg with
    | error e' =>
      simp only [h]
      constructor
      · intro he
        cases he
        rfl
      · intro he
        cases he
        rfl
    | ok v =>
      simp only [h]
      constructor
      · intro he; cases he
      · intro he; cases he

/-- C5: when a fresh acquisition attempt fails (download or construction),
the failure propagates, the singleton slot stays unset, and a later
acquisition with healthy collaborators re-attempts construction and
succeeds — a failed attempt is never cached. -/
theorem loadLlama_failure_not_cached {E : Type} (e : E)
    (dl : Except E String) (ln : String → Except E LlamaHandle)
    (hfail : dl = .error e ∨ ∃ p, dl = .ok p ∧ ln p = .error e) :
    (loadLlamaOnce Option.none dl ln).1 = .error e
    ∧ (loadLlamaOnce Option.none dl ln).2 = Option.none
    ∧ (∀ (dl2 : Except E String) (ln2 : String → Except E LlamaHandle)
        (p : String) (h : LlamaHandle), dl2 = .ok p → ln2 p = .ok h →
        loadLlamaOnce (loadLlamaOnce Option.none dl ln).2 dl2 ln2
          = (.ok h, some h)) := by
  rcases hfail with rfl | ⟨p, rfl, hln⟩
  · refine ⟨rfl, rfl, ?_⟩
    intro dl2 ln2 p h hdl2 hln2
    subst hdl2
    simp [loadLlamaOnce, hln2]
  · have h1 : loadLlamaOnce Option.none (Except.ok p) ln
        = (.error e, Option.none) := by
      simp [loadLlamaOnce, hln]
    refine ⟨by rw [h1], by rw [h1], ?_⟩
    intro dl2 ln2 p2 h hdl2 hln2
    rw [h1]
    subst hdl2
    simp [loadLlamaOnce, hln2]

/-- Witness for C5: a failed download propagates and leaves the slot
empty; the retry with a working download and constructor succeeds. -/
theorem loadLlama_failure_not_cached_witness :
    (loadLlamaOnce Option.none (Except.error "no network")
        (fun _ => Except.ok 0)).1 = .error "no network"
    ∧ loadLlamaOnce
        (loadLlamaOnce Option.none (Except.error "no network")
          (fun _ => Except.ok 0)).2
        (Except.ok "model.gguf" : Except String String)
        (fun _ => (Except.ok 5 : Except String LlamaHandle))
        = (.ok 5, some 5) := by
  have h := loadLlama_failure_not_cached "no network"
    (Except.error "no network") (fun _ => Except.ok (0 : LlamaHandle))
    (Or.inl rfl)
  exact ⟨h.1, h.2.2 (Except.ok "model.gguf") (fun _ => Except.ok 5)
    "model.gguf" 5 rfl rfl⟩

/-- C2: in every reachable state of the concurrent double-checked-locking
protocol in which all `n ≥ 1` callers have finished, exactly one
`Llama(...)` construction has run and all callers hold the same handle
identity; moreover a caller that starts while the instance already exists
finishes in its single next step, via the unlocked fast-path check, with
that existing handle (it never enters the lock queue). -/
theorem loadLlama_single_construction {n : Nat} (s : LoaderState n)
    (hn : 0 < n) (hreach : LoaderReachable s) :
    ((∀ i, ∃ h, s.pcs i = PC.done h) →
      s.constructions = 1
      ∧ ∀ (i j : Fin n) (hi hj : LlamaHandle),
          s.pcs i = PC.done hi → s.pcs j = PC.done hj → hi = hj)
    ∧ (∀ (i : Fin n) (h : LlamaHandle) (s' : LoaderState n),
        s.inst = some h → s.pcs i = PC.start → ThreadStep i s s' →
        s'.pcs i = PC.done h) := by
  obtain ⟨hlock, hmutex, hcount, hiffz, hzero, hdone⟩ := loaderInv_reachable hreach
  constructor
  · intro halldone
    obtain ⟨h0, hpc0⟩ := halldone ⟨0, hn⟩
    have hinst : s.inst = some h0 := hdone _ _ hpc0
    constructor
    · have hne0 : s.constructions ≠ 0 := by
        intro hc
        have hnone : s.inst = Option.none := hiffz.mpr hc
        rw [hnone] at hinst
        cases hinst
      omega
    · intro i j hi hj hdi hdj
      have h1 : s.inst = some hi := hdone i hi hdi
      have h2 : s.inst = some hj := hdone j hj hdj
      rw [h1] at h2
      exact Option.some_inj.mp h2
  · intro i h s' hinst hstart hstep
    cases hstep with
    | fastHit h' hpc hin =>
      rw [hinst] at hin
      obtain rfl := Option.some_inj.mp hin
      dsimp only
      rw [Function.update_same]
    | fastMiss hpc hin => rw [hinst] at hin; cases hin
    | acquireLock hpc hl => rw [hstart] at hpc; cases hpc
    | secondHit h' hpc hin => rw [hstart] at hpc; cases hpc
    | construct hpc hin => rw [hstart] at hpc; cases hpc

/-- Intermediate states of the C2 witness run: one caller misses the fast
path, takes the lock, constructs, and finishes. -/
def loaderS1 : LoaderState 1 :=
  { loaderInit 1 with pcs := Function.update (loaderInit 1).pcs 0 PC.waiting }

def loaderS2 : LoaderState 1 :=
  { loaderS1 with
      lockHeld := true
      pcs := Function.update loaderS1.pcs 0 PC.critical }

def loaderS3 : LoaderState 1 :=
  { inst := some loaderS2.constructions, lockHeld := false
    constructions := loaderS2.constructions + 1
    pcs := Function.update loaderS2.pcs 0 (PC.done loaderS2.constructions) }

/-- Witness for C2: the three-step run of one caller reaches an all-done
state, and the theorem yields one construction and handle agreement. -/
theorem loadLlama_single_construction_witness :
    LoaderReachable loaderS3
    ∧ loaderS3.constructions = 1
    ∧ (∀ (i j : Fin 1) (hi hj : LlamaHandle),
        loaderS3.pcs i = PC.done hi → loaderS3.pcs j = PC.done hj → hi = hj) := by
  have st1 : LoaderStep (loaderInit 1) loaderS1 :=
    ⟨0, ThreadStep.fastMiss (loaderInit 1) rfl rfl⟩
  have st2 : LoaderStep loaderS1 loaderS2 :=
    ⟨0, ThreadStep.acquireLock loaderS1 (by decide) rfl⟩
  have st3 : LoaderStep loaderS2 loaderS3 :=
    ⟨0, ThreadStep.construct loaderS2 (by decide) rfl⟩
  have hreach : LoaderReachable loaderS3 :=
    Relation.ReflTransGen.head st1
      (Relation.ReflTransGen.head st2 (Relation.ReflTransGen.single st3))
  have halldone : ∀ i : Fin 1, ∃ h, loaderS3.pcs i = PC.done h := by
    intro i
    obtain rfl := Fin.fin_one_eq_zero i
    exact ⟨0, by decide⟩
  obtain ⟨hc, hid⟩ :=
    (loadLlama_single_construction loaderS3 Nat.one_pos hreach).1 halldone
  exact ⟨hreach, hc, hid⟩

end EmbedGw
